import Mathlib

/-!
# Verification of the proxy-service streaming decode pipeline

Shallow embedding of the streaming core of `wolodata/proxy-service`:

* the tag-based content splitter of
  `internal/service/perplexity.go` (`StreamChatCompletions`, state machine
  over `<think>` / `</think>` markers, and `isPotentialTagPrefix`);
* the SSE frame decoder and typed event stream of
  `internal/ssestream` (`eventStreamDecoder.Next`, `Stream[T].Next`),
  instantiated at `ChatCompletionChunk` exactly as the service does.

Go operates on bytes; all inputs of interest here are ASCII, and the
embedding models the byte sequences as `List Char`.
-/

namespace ProxySplit

/-- The open marker `"<think>"` (7 characters). -/
def openTag : List Char := ['<', 't', 'h', 'i', 'n', 'k', '>']

/-- The close marker `"</think>"` (8 characters). -/
def closeTag : List Char := ['<', '/', 't', 'h', 'i', 'n', 'k', '>']

/-- The marker relevant to a state: `</think>` while thinking, `<think>`
otherwise. -/
def relevantTag (inTh : Bool) : List Char := if inTh then closeTag else openTag

/-- `isPotentialTagPrefix` from `internal/service/perplexity.go` (lines 85-100):
`str` is non-empty, shorter than 8, and a prefix of the marker selected by the
current state (`</think>` while thinking, `<think>` otherwise). -/
def isPotentialTagPrefix (str : List Char) (inThinking : Bool) : Bool :=
  if str.length = 0 ∨ 8 ≤ str.length then false
  else if inThinking then str.isPrefixOf closeTag
  else str.isPrefixOf openTag

/-- Result of scanning one merged fragment: the final `inThinking` flag and the
contents of `reasoningBuf`, `messageBuf` and `buffer` at loop exit
(`StreamChatCompletions`, lines 272-313). -/
structure ScanOut where
  inThinking : Bool
  reasoningBuf : List Char
  messageBuf : List Char
  buffer : List Char
deriving DecidableEq, Repr

/-- Consuming one character into the buffer of the current state
(`StreamChatCompletions`, lines 306-312). -/
def consStep (inTh : Bool) (c : Char) (r : ScanOut) : ScanOut :=
  if inTh then ⟨r.inThinking, c :: r.reasoningBuf, r.messageBuf, r.buffer⟩
  else ⟨r.inThinking, r.reasoningBuf, c :: r.messageBuf, r.buffer⟩

/-- The character-scan loop of `StreamChatCompletions` (lines 276-313), with an
explicit fuel argument to make the non-structural loop a structural recursion.
`scanChars` below always supplies sufficient fuel (one unit is spent per loop
iteration, which consumes at least one character).  At each position: an exact
relevant marker flips the state and skips the marker, otherwise a short
remainder that is a potential marker prefix is moved to `buffer` and the loop
breaks, otherwise one character is consumed into the buffer of the current
state. -/
def scanAux : Nat → Bool → List Char → ScanOut
  | 0, inTh, s => ⟨inTh, [], [], s⟩
  | fuel + 1, inTh, s =>
    if !inTh && openTag.isPrefixOf s then
      scanAux fuel true (s.drop 7)
    else if inTh && closeTag.isPrefixOf s then
      scanAux fuel false (s.drop 8)
    else if s.length < 8 ∧ isPotentialTagPrefix s inTh then
      ⟨inTh, [], [], s⟩
    else
      match s with
      | [] => ⟨inTh, [], [], []⟩
      | c :: rest => consStep inTh c (scanAux fuel inTh rest)

/-- Scan a merged fragment, starting from state `inTh`. -/
def scanChars (inTh : Bool) (s : List Char) : ScanOut :=
  scanAux s.length inTh s

/-- Segment kind: `ReasoningChunk` vs `MessageChunk` responses. -/
inductive SegKind where
  | reasoning
  | answer
deriving DecidableEq, Repr

/-- A segment emitted by the splitter. -/
structure Segment where
  kind : SegKind
  text : List Char
deriving DecidableEq, Repr

/-- The splitter state threaded across fragments: the `inThinking` flag and the
cross-chunk `buffer` of `StreamChatCompletions` (lines 214-215). -/
structure SplitterState where
  inThinking : Bool
  buffer : List Char
deriving DecidableEq, Repr

/-- Initial splitter state (`inThinking := false`, empty buffer). -/
def initState : SplitterState := ⟨false, []⟩

/-- Process one delta fragment (`StreamChatCompletions`, lines 259-341): an
empty delta is skipped; otherwise the carried-over buffer is prepended, the
merged text is scanned, and a Reasoning segment followed by an Answer segment
are emitted for the non-empty accumulation buffers. -/
def processFragment (st : SplitterState) (frag : List Char) :
    SplitterState × List Segment :=
  if frag = [] then (st, [])
  else
    let r := scanChars st.inThinking (st.buffer ++ frag)
    (⟨r.inThinking, r.buffer⟩,
      (if r.reasoningBuf = [] then [] else [⟨SegKind.reasoning, r.reasoningBuf⟩]) ++
      (if r.messageBuf = [] then [] else [⟨SegKind.answer, r.messageBuf⟩]))

/-- Process a list of fragments, collecting the emitted segments in order. -/
def processFragments (st : SplitterState) : List (List Char) → SplitterState × List Segment
  | [] => (st, [])
  | f :: fs =>
    let p := processFragment st f
    let q := processFragments p.1 fs
    (q.1, p.2 ++ q.2)

/-- End-of-stream finalization (`StreamChatCompletions`, lines 344-369): a
non-empty buffer is flushed verbatim as one trailing segment tagged by the
state active at that moment. -/
def flushBuffer (st : SplitterState) : List Segment :=
  if st.buffer = [] then []
  else [⟨if st.inThinking then SegKind.reasoning else SegKind.answer, st.buffer⟩]

/-- Run the splitter from the initial state over a fragment sequence,
including the end-of-stream flush. -/
def runSplitter (frags : List (List Char)) : List Segment :=
  let p := processFragments initState frags
  p.2 ++ flushBuffer p.1

end ProxySplit

namespace ProxySplit

-- Sanity examples (loop behaviour on concrete inputs).
example :
    runSplitter [("a<thi").toList, ("nk>b</think>c").toList] =
      [⟨SegKind.answer, ['a']⟩, ⟨SegKind.reasoning, ['b']⟩, ⟨SegKind.answer, ['c']⟩] := by
  decide

example :
    runSplitter [("a<think>b</think>c").toList] =
      [⟨SegKind.reasoning, ['b']⟩, ⟨SegKind.answer, ['a', 'c']⟩] := by
  decide

example :
    runSplitter [("done<th").toList] =
      [⟨SegKind.answer, ("done").toList⟩, ⟨SegKind.answer, ("<th").toList⟩] := by
  decide

/-! ## Basic lemmas about the scan loop -/

lemma relevantTag_length (b : Bool) : (relevantTag b).length = if b then 8 else 7 := by
  cases b <;> rfl

lemma consStep_buffer (inTh : Bool) (c : Char) (r : ScanOut) :
    (consStep inTh c r).buffer = r.buffer := by
  cases inTh <;> rfl

lemma consStep_inThinking (inTh : Bool) (c : Char) (r : ScanOut) :
    (consStep inTh c r).inThinking = r.inThinking := by
  cases inTh <;> rfl

lemma isPotentialTagPrefix_spec {s : List Char} {inTh : Bool}
    (h : isPotentialTagPrefix s inTh = true) :
    s ≠ [] ∧ s.length < 8 ∧ s <+: relevantTag inTh := by
  unfold isPotentialTagPrefix at h
  split at h
  · simp at h
  · rename_i hlen
    push_neg at hlen
    obtain ⟨h0, h8⟩ := hlen
    refine ⟨fun hnil => h0 (by simp [hnil]), h8, ?_⟩
    cases inTh with
    | false => simpa [relevantTag] using List.isPrefixOf_iff_prefix.mp (by simpa using h)
    | true => simpa [relevantTag] using List.isPrefixOf_iff_prefix.mp (by simpa using h)

lemma isPotentialTagPrefix_of_not_prefixOf {s : List Char} {inTh : Bool}
    (h : s.isPrefixOf (relevantTag inTh) = false) :
    isPotentialTagPrefix s inTh = false := by
  unfold isPotentialTagPrefix
  split
  · rfl
  · cases inTh with
    | false => simpa [relevantTag] using h
    | true => simpa [relevantTag] using h

lemma isPrefixOf_false_of_head_ne {a c : Char} (as l : List Char) (h : a ≠ c) :
    (a :: as).isPrefixOf (c :: l) = false := by
  simp [List.isPrefixOf, h]

lemma isPrefixOf_false_of_second_ne {a b c d : Char} (as l : List Char) (h : b ≠ d) :
    (a :: b :: as).isPrefixOf (c :: d :: l) = false := by
  simp [List.isPrefixOf, h]

lemma scanAux_step_open {s : List Char} (fuel : Nat) (h : openTag.isPrefixOf s = true) :
    scanAux (fuel + 1) false s = scanAux fuel true (s.drop 7) := by
  simp [scanAux, h]

lemma scanAux_step_close {s : List Char} (fuel : Nat) (h : closeTag.isPrefixOf s = true) :
    scanAux (fuel + 1) true s = scanAux fuel false (s.drop 8) := by
  simp [scanAux, h]

lemma scanAux_step_pending {s : List Char} {inTh : Bool} (fuel : Nat)
    (h1 : (!inTh && openTag.isPrefixOf s) = false)
    (h2 : (inTh && closeTag.isPrefixOf s) = false)
    (h4 : isPotentialTagPrefix s inTh = true) :
    scanAux (fuel + 1) inTh s = ⟨inTh, [], [], s⟩ := by
  have h3 : s.length < 8 := (isPotentialTagPrefix_spec h4).2.1
  simp [scanAux, h1, h2, h3, h4]

lemma scanAux_step_consume {c : Char} {rest : List Char} {inTh : Bool} (fuel : Nat)
    (h1 : (!inTh && openTag.isPrefixOf (c :: rest)) = false)
    (h2 : (inTh && closeTag.isPrefixOf (c :: rest)) = false)
    (h4 : isPotentialTagPrefix (c :: rest) inTh = false) :
    scanAux (fuel + 1) inTh (c :: rest) = consStep inTh c (scanAux fuel inTh rest) := by
  simp [scanAux, h1, h2, h4]

/-- The scan loop only ever leaves a buffer that is empty or a strict non-empty
prefix of the marker relevant to the final state. -/
lemma scanAux_buffer_ok :
    ∀ (fuel : Nat) (inTh : Bool) (s : List Char), s.length ≤ fuel →
      (scanAux fuel inTh s).buffer = [] ∨
        ((scanAux fuel inTh s).buffer <+: relevantTag (scanAux fuel inTh s).inThinking ∧
         (scanAux fuel inTh s).buffer ≠ relevantTag (scanAux fuel inTh s).inThinking ∧
         (scanAux fuel inTh s).buffer ≠ []) := by
  intro fuel
  induction fuel with
  | zero =>
    intro inTh s hs
    left
    have h : s = [] := List.eq_nil_of_length_eq_zero (Nat.le_zero.mp hs)
    subst h
    rfl
  | succ fuel ih =>
    intro inTh s hs
    by_cases h1 : (!inTh && openTag.isPrefixOf s) = true
    · obtain ⟨hT, hp⟩ : (!inTh) = true ∧ openTag.isPrefixOf s = true := by simpa using h1
      have hb : inTh = false := by cases inTh <;> simp_all
      subst hb
      rw [scanAux_step_open fuel hp]
      refine ih true (s.drop 7) ?_
      simp only [List.length_drop]
      omega
    · by_cases h2 : (inTh && closeTag.isPrefixOf s) = true
      · obtain ⟨hT, hp⟩ : inTh = true ∧ closeTag.isPrefixOf s = true := by simpa using h2
        have hb : inTh = true := by cases inTh <;> simp_all
        subst hb
        rw [scanAux_step_close fuel hp]
        refine ih false (s.drop 8) ?_
        simp only [List.length_drop]
        omega
      · rw [Bool.not_eq_true] at h1 h2
        by_cases h4 : isPotentialTagPrefix s inTh = true
        · rw [scanAux_step_pending fuel h1 h2 h4]
          right
          obtain ⟨hne, hlen, hpre⟩ := isPotentialTagPrefix_spec h4
          refine ⟨hpre, ?_, hne⟩
          intro he0
          cases inTh with
          | false =>
            have he : s = openTag := he0
            have hself : openTag.isPrefixOf openTag = true :=
              List.isPrefixOf_iff_prefix.mpr (List.prefix_refl _)
            rw [he, hself] at h1
            simp at h1
          | true =>
            have he : s = closeTag := he0
            have hself : closeTag.isPrefixOf closeTag = true :=
              List.isPrefixOf_iff_prefix.mpr (List.prefix_refl _)
            rw [he, hself] at h2
            simp at h2
        · rw [Bool.not_eq_true] at h4
          cases s with
          | nil =>
            left
            cases inTh <;> rfl
          | cons c rest =>
            rw [scanAux_step_consume fuel h1 h2 h4]
            rw [consStep_buffer, consStep_inThinking]
            refine ih inTh rest ?_
            simp only [List.length_cons] at hs
            omega

/-- The pending-buffer invariant on splitter states. -/
def pendingOK (st : SplitterState) : Prop :=
  st.buffer = [] ∨
    (st.buffer <+: relevantTag st.inThinking ∧
     st.buffer ≠ relevantTag st.inThinking ∧ st.buffer ≠ [])

lemma processFragment_pendingOK (st : SplitterState) (f : List Char)
    (h : pendingOK st) : pendingOK (processFragment st f).1 := by
  unfold processFragment
  split
  · exact h
  · have hb := scanAux_buffer_ok (st.buffer ++ f).length st.inThinking (st.buffer ++ f) le_rfl
    unfold pendingOK
    simpa [scanChars] using hb

lemma processFragments_pendingOK (fs : List (List Char)) :
    ∀ st : SplitterState, pendingOK st → pendingOK (processFragments st fs).1 := by
  induction fs with
  | nil => intro st h; exact h
  | cons f fs ih =>
    intro st h
    simpa [processFragments] using ih _ (processFragment_pendingOK st f h)

/-- While `Inside`, a character other than `'<'` is always consumed as
ordinary reasoning text. -/
lemma scanAux_consume_inside_head_ne (fuel : Nat) (c : Char) (rest : List Char)
    (hne : c ≠ '<') :
    scanAux (fuel + 1) true (c :: rest) = consStep true c (scanAux fuel true rest) := by
  have hp : closeTag.isPrefixOf (c :: rest) = false :=
    isPrefixOf_false_of_head_ne _ _ (Ne.symm hne)
  have hp2 : (c :: rest).isPrefixOf closeTag = false :=
    isPrefixOf_false_of_head_ne _ _ hne
  exact scanAux_step_consume fuel (by simp) (by simp [hp])
    (isPotentialTagPrefix_of_not_prefixOf hp2)

/-- While `Inside`, `'<'` followed by `'t'` is consumed as ordinary reasoning
text (it cannot begin `</think>`). -/
lemma scanAux_consume_inside_open (fuel : Nat) (rest : List Char) :
    scanAux (fuel + 1) true ('<' :: 't' :: rest) =
      consStep true '<' (scanAux fuel true ('t' :: rest)) := by
  have hp : closeTag.isPrefixOf ('<' :: 't' :: rest) = false :=
    isPrefixOf_false_of_second_ne _ _ (by decide)
  have hp2 : ('<' :: 't' :: rest).isPrefixOf closeTag = false :=
    isPrefixOf_false_of_second_ne _ _ (by decide)
  exact scanAux_step_consume fuel (by simp) (by simp [hp])
    (isPotentialTagPrefix_of_not_prefixOf hp2)

/-- While `Inside`, a leading open marker `<think>` is consumed as seven
ordinary reasoning characters: the state does not change, and the scan
continues on the remainder exactly as if the marker were plain text. -/
lemma scanChars_openTag_while_inside (r : List Char) :
    scanChars true (openTag ++ r) =
      ⟨(scanChars true r).inThinking,
       openTag ++ (scanChars true r).reasoningBuf,
       (scanChars true r).messageBuf,
       (scanChars true r).buffer⟩ := by
  have e : (openTag ++ r).length = r.length + 7 := by
    simp [openTag]
  unfold scanChars
  rw [e]
  show scanAux (r.length + 7) true ('<' :: 't' :: 'h' :: 'i' :: 'n' :: 'k' :: '>' :: r) = _
  rw [show r.length + 7 = (r.length + 6) + 1 from rfl, scanAux_consume_inside_open]
  rw [show r.length + 6 = (r.length + 5) + 1 from rfl,
    scanAux_consume_inside_head_ne _ _ _ (by decide)]
  rw [show r.length + 5 = (r.length + 4) + 1 from rfl,
    scanAux_consume_inside_head_ne _ _ _ (by decide)]
  rw [show r.length + 4 = (r.length + 3) + 1 from rfl,
    scanAux_consume_inside_head_ne _ _ _ (by decide)]
  rw [show r.length + 3 = (r.length + 2) + 1 from rfl,
    scanAux_consume_inside_head_ne _ _ _ (by decide)]
  rw [show r.length + 2 = (r.length + 1) + 1 from rfl,
    scanAux_consume_inside_head_ne _ _ _ (by decide)]
  rw [scanAux_consume_inside_head_ne _ _ _ (by decide)]
  simp [consStep, openTag]

/-! ## Instrumented scan: chronological emission order

`scanSeqAux` mirrors `scanAux` branch for branch, recording the chronological
sequence of (state, character) pairs the loop consumes as ordinary text.
Matched markers and the withheld pending suffix contribute nothing. -/

def scanSeqAux : Nat → Bool → List Char → List (Bool × Char)
  | 0, _, _ => []
  | fuel + 1, inTh, s =>
    if !inTh && openTag.isPrefixOf s then scanSeqAux fuel true (s.drop 7)
    else if inTh && closeTag.isPrefixOf s then scanSeqAux fuel false (s.drop 8)
    else if s.length < 8 ∧ isPotentialTagPrefix s inTh then []
    else
      match s with
      | [] => []
      | c :: rest => (inTh, c) :: scanSeqAux fuel inTh rest

/-- Chronological (state, character) emission sequence of one merged
fragment. -/
def scanSeq (inTh : Bool) (s : List Char) : List (Bool × Char) :=
  scanSeqAux s.length inTh s

/-- Modelled from the spec: "completed markers are consumed by state
transitions and never surfaced to its output" — the fragment text with every
matched state-relevant marker occurrence deleted, and nothing withheld. -/
def specStripAux : Nat → Bool → List Char → List Char
  | 0, _, s => s
  | fuel + 1, inTh, s =>
    if !inTh && openTag.isPrefixOf s then specStripAux fuel true (s.drop 7)
    else if inTh && closeTag.isPrefixOf s then specStripAux fuel false (s.drop 8)
    else
      match s with
      | [] => []
      | c :: rest => c :: specStripAux fuel inTh rest

/-- The fragment text with every matched state-relevant marker deleted. -/
def specStrip (inTh : Bool) (s : List Char) : List Char :=
  specStripAux s.length inTh s

lemma consStep_reasoningBuf (inTh : Bool) (c : Char) (r : ScanOut) :
    (consStep inTh c r).reasoningBuf =
      if inTh then c :: r.reasoningBuf else r.reasoningBuf := by
  cases inTh <;> rfl

lemma consStep_messageBuf (inTh : Bool) (c : Char) (r : ScanOut) :
    (consStep inTh c r).messageBuf =
      if inTh then r.messageBuf else c :: r.messageBuf := by
  cases inTh <;> rfl

lemma scanSeqAux_step_open {s : List Char} (fuel : Nat)
    (h : openTag.isPrefixOf s = true) :
    scanSeqAux (fuel + 1) false s = scanSeqAux fuel true (s.drop 7) := by
  simp [scanSeqAux, h]

lemma scanSeqAux_step_close {s : List Char} (fuel : Nat)
    (h : closeTag.isPrefixOf s = true) :
    scanSeqAux (fuel + 1) true s = scanSeqAux fuel false (s.drop 8) := by
  simp [scanSeqAux, h]

lemma scanSeqAux_step_pending {s : List Char} {inTh : Bool} (fuel : Nat)
    (h1 : (!inTh && openTag.isPrefixOf s) = false)
    (h2 : (inTh && closeTag.isPrefixOf s) = false)
    (h4 : isPotentialTagPrefix s inTh = true) :
    scanSeqAux (fuel + 1) inTh s = [] := by
  have h3 : s.length < 8 := (isPotentialTagPrefix_spec h4).2.1
  simp [scanSeqAux, h1, h2, h3, h4]

lemma scanSeqAux_step_consume {c : Char} {rest : List Char} {inTh : Bool} (fuel : Nat)
    (h1 : (!inTh && openTag.isPrefixOf (c :: rest)) = false)
    (h2 : (inTh && closeTag.isPrefixOf (c :: rest)) = false)
    (h4 : isPotentialTagPrefix (c :: rest) inTh = false) :
    scanSeqAux (fuel + 1) inTh (c :: rest) = (inTh, c) :: scanSeqAux fuel inTh rest := by
  simp [scanSeqAux, h1, h2, h4]

lemma specStripAux_step_open {s : List Char} (fuel : Nat)
    (h : openTag.isPrefixOf s = true) :
    specStripAux (fuel + 1) false s = specStripAux fuel true (s.drop 7) := by
  simp [specStripAux, h]

lemma specStripAux_step_close {s : List Char} (fuel : Nat)
    (h : closeTag.isPrefixOf s = true) :
    specStripAux (fuel + 1) true s = specStripAux fuel false (s.drop 8) := by
  simp [specStripAux, h]

lemma specStripAux_step_consume {c : Char} {rest : List Char} {inTh : Bool} (fuel : Nat)
    (h1 : (!inTh && openTag.isPrefixOf (c :: rest)) = false)
    (h2 : (inTh && closeTag.isPrefixOf (c :: rest)) = false) :
    specStripAux (fuel + 1) inTh (c :: rest) = c :: specStripAux fuel inTh rest := by
  simp [specStripAux, h1, h2]

/-- On text shorter than the relevant marker, the stripper removes nothing. -/
lemma specStripAux_short :
    ∀ (fuel : Nat) (inTh : Bool) (s : List Char),
      s.length < (relevantTag inTh).length → specStripAux fuel inTh s = s := by
  intro fuel
  induction fuel with
  | zero => intro inTh s _; rfl
  | succ fuel ih =>
    intro inTh s hlen
    have h1 : (!inTh && openTag.isPrefixOf s) = false := by
      cases inTh with
      | true => rfl
      | false =>
        simp only [Bool.not_false, Bool.true_and]
        by_contra hc
        rw [Bool.not_eq_false] at hc
        have := (List.isPrefixOf_iff_prefix.mp hc).length_le
        rw [relevantTag_length] at hlen
        norm_num at hlen
        simp [openTag] at this
        omega
    have h2 : (inTh && closeTag.isPrefixOf s) = false := by
      cases inTh with
      | false => rfl
      | true =>
        simp only [Bool.true_and]
        by_contra hc
        rw [Bool.not_eq_false] at hc
        have := (List.isPrefixOf_iff_prefix.mp hc).length_le
        rw [relevantTag_length] at hlen
        norm_num at hlen
        simp [closeTag] at this
        omega
    cases s with
    | nil => cases inTh <;> rfl
    | cons c rest =>
      rw [specStripAux_step_consume fuel h1 h2]
      have : rest.length < (relevantTag inTh).length := by
        simp only [List.length_cons] at hlen
        omega
      rw [ih inTh rest this]

/-- Core conservation lemma: the two accumulation buffers are the mode-filtered
projections of the chronological emission sequence, and the chronological
emissions followed by the withheld pending buffer are exactly the input with
every matched relevant marker deleted. -/
lemma scanAux_conservation :
    ∀ (fuel : Nat) (inTh : Bool) (s : List Char),
      (scanAux fuel inTh s).reasoningBuf =
        (scanSeqAux fuel inTh s).filterMap (fun p => if p.1 then some p.2 else none) ∧
      (scanAux fuel inTh s).messageBuf =
        (scanSeqAux fuel inTh s).filterMap (fun p => if p.1 then none else some p.2) ∧
      (scanSeqAux fuel inTh s).map Prod.snd ++ (scanAux fuel inTh s).buffer =
        specStripAux fuel inTh s := by
  intro fuel
  induction fuel with
  | zero => intro inTh s; exact ⟨rfl, rfl, rfl⟩
  | succ fuel ih =>
    intro inTh s
    by_cases h1 : (!inTh && openTag.isPrefixOf s) = true
    · obtain ⟨hT, hp⟩ : (!inTh) = true ∧ openTag.isPrefixOf s = true := by simpa using h1
      have hb : inTh = false := by cases inTh <;> simp_all
      subst hb
      rw [scanAux_step_open fuel hp, scanSeqAux_step_open fuel hp,
        specStripAux_step_open fuel hp]
      exact ih true (s.drop 7)
    · by_cases h2 : (inTh && closeTag.isPrefixOf s) = true
      · obtain ⟨hT, hp⟩ : inTh = true ∧ closeTag.isPrefixOf s = true := by simpa using h2
        subst hT
        rw [scanAux_step_close fuel hp, scanSeqAux_step_close fuel hp,
          specStripAux_step_close fuel hp]
        exact ih false (s.drop 8)
      · rw [Bool.not_eq_true] at h1 h2
        by_cases h4 : isPotentialTagPrefix s inTh = true
        · rw [scanAux_step_pending fuel h1 h2 h4, scanSeqAux_step_pending fuel h1 h2 h4]
          obtain ⟨hne, hlen, hpre⟩ := isPotentialTagPrefix_spec h4
          have hshort : s.length < (relevantTag inTh).length := by
            cases inTh with
            | true =>
              rw [relevantTag_length]
              simpa using hlen
            | false =>
              refine lt_of_le_of_ne hpre.length_le fun heq => ?_
              have : s = relevantTag false := hpre.eq_of_length heq
              have hself : openTag.isPrefixOf openTag = true :=
                List.isPrefixOf_iff_prefix.mpr (List.prefix_refl _)
              rw [show relevantTag false = openTag from rfl] at this
              rw [this, hself] at h1
              simp at h1
          rw [specStripAux_short (fuel + 1) inTh s hshort]
          exact ⟨rfl, rfl, rfl⟩
        · rw [Bool.not_eq_true] at h4
          cases s with
          | nil => exact ⟨by cases inTh <;> rfl, by cases inTh <;> rfl, by cases inTh <;> rfl⟩
          | cons c rest =>
            rw [scanAux_step_consume fuel h1 h2 h4, scanSeqAux_step_consume fuel h1 h2 h4,
              specStripAux_step_consume fuel h1 h2]
            obtain ⟨ihr, ihm, ihs⟩ := ih inTh rest
            refine ⟨?_, ?_, ?_⟩
            · rw [consStep_reasoningBuf, List.filterMap_cons, ihr]
              cases inTh <;> simp
            · rw [consStep_messageBuf, List.filterMap_cons, ihm]
              cases inTh <;> simp
            · simp only [List.map_cons, List.cons_append, consStep_buffer]
              rw [ihs]

/-! ## Claims about the splitter -/

/-- C1, counterexample: contrary to the claim, the single fragment
`"a<think>b</think>c"` does not yield Answer("a"), Reasoning("b"), Answer("c")
(the two-fragment chunking does, so the two chunkings are not equivalent). -/
theorem c1_single_fragment_not_chronological :
    runSplitter [("a<thi").toList, ("nk>b</think>c").toList] =
      [⟨SegKind.answer, ("a").toList⟩, ⟨SegKind.reasoning, ("b").toList⟩,
       ⟨SegKind.answer, ("c").toList⟩] ∧
    runSplitter [("a<think>b</think>c").toList] ≠
      [⟨SegKind.answer, ("a").toList⟩, ⟨SegKind.reasoning, ("b").toList⟩,
       ⟨SegKind.answer, ("c").toList⟩] := by
  decide

/-- C1, amended: the two-fragment chunking `["a<thi", "nk>b</think>c"]` yields
Answer("a"), Reasoning("b"), Answer("c"), but the single-fragment chunking
`["a<think>b</think>c"]` yields Reasoning("b") then Answer("ac"): within one
fragment the splitter merges all Reasoning text into one segment and all
Answer text into another and emits the Reasoning segment first, so
chronological order across a state change inside a fragment is not preserved
and the two chunkings are not equivalent. -/
theorem c1_segments_per_chunking :
    runSplitter [("a<thi").toList, ("nk>b</think>c").toList] =
      [⟨SegKind.answer, ("a").toList⟩, ⟨SegKind.reasoning, ("b").toList⟩,
       ⟨SegKind.answer, ("c").toList⟩] ∧
    runSplitter [("a<think>b</think>c").toList] =
      [⟨SegKind.reasoning, ("b").toList⟩, ⟨SegKind.answer, ("ac").toList⟩] := by
  decide

/-- C2, counterexample: the single fragment `"<think>a<think>b</think>c"`
makes the splitter emit the segment Reasoning("a<think>b"), whose text contains
the literal open marker `<think>`. -/
theorem c2_segment_contains_marker :
    runSplitter [("<think>a<think>b</think>c").toList] =
      [⟨SegKind.reasoning, ("a<think>b").toList⟩, ⟨SegKind.answer, ("c").toList⟩] ∧
    openTag <:+: (("a<think>b").toList) := by
  decide

/-- C2, amended: Segment texts can contain the literal marker substrings (an
open marker while `Inside` or a close marker while `Outside` is passed through
as ordinary text, and within one fragment the two buffers merge
non-contiguous runs).  What does hold is that every marker occurrence matched
in the state it is relevant to is consumed by the state transition and its
bytes are never emitted: for each merged fragment, the Reasoning and Answer
buffers are exactly the mode-filtered projections of the chronological
emission sequence, and that sequence followed by the withheld pending buffer
equals the fragment text with every matched relevant marker deleted. -/
theorem c2_matched_markers_consumed (inTh : Bool) (s : List Char) :
    (scanChars inTh s).reasoningBuf =
      (scanSeq inTh s).filterMap (fun p => if p.1 then some p.2 else none) ∧
    (scanChars inTh s).messageBuf =
      (scanSeq inTh s).filterMap (fun p => if p.1 then none else some p.2) ∧
    (scanSeq inTh s).map Prod.snd ++ (scanChars inTh s).buffer = specStrip inTh s :=
  scanAux_conservation s.length inTh s

/-- C3: an open marker occurring while the splitter is already `Inside` is
ordinary reasoning text, not a state change.  In general, a leading `<think>`
scanned in the `Inside` state is consumed as seven plain reasoning characters
with no state change; in particular, the single fragment
`"<think>a<think>b</think>c"` yields Reasoning("a<think>b") then Answer("c"). -/
theorem c3_no_nesting :
    (∀ r : List Char,
      scanChars true (openTag ++ r) =
        ⟨(scanChars true r).inThinking,
         openTag ++ (scanChars true r).reasoningBuf,
         (scanChars true r).messageBuf,
         (scanChars true r).buffer⟩) ∧
    runSplitter [("<think>a<think>b</think>c").toList] =
      [⟨SegKind.reasoning, ("a<think>b").toList⟩, ⟨SegKind.answer, ("c").toList⟩] := by
  exact ⟨scanChars_openTag_while_inside, by decide⟩

/-- C4: after any fragment sequence from the initial state, the pending buffer
is either empty or a strict non-empty prefix of the marker relevant to the
current state, and its length is below 7 while Outside and below 8 while
Inside. -/
theorem c4_pending_strict_prefix (frags : List (List Char)) :
    ((processFragments initState frags).1.buffer = [] ∨
      ((processFragments initState frags).1.buffer ≠ [] ∧
        (processFragments initState frags).1.buffer <+:
          relevantTag (processFragments initState frags).1.inThinking ∧
        (processFragments initState frags).1.buffer ≠
          relevantTag (processFragments initState frags).1.inThinking)) ∧
    (processFragments initState frags).1.buffer.length <
      (if (processFragments initState frags).1.inThinking then 8 else 7) := by
  have h := processFragments_pendingOK frags initState (Or.inl rfl)
  unfold pendingOK at h
  rcases h with h | ⟨hpre, hne, hnil⟩
  · refine ⟨Or.inl h, ?_⟩
    rw [h]
    cases (processFragments initState frags).1.inThinking <;> simp
  · refine ⟨Or.inr ⟨hnil, hpre, hne⟩, ?_⟩
    have h1 := hpre.length_le
    have h2 : (processFragments initState frags).1.buffer.length ≠
        (relevantTag (processFragments initState frags).1.inThinking).length :=
      fun heq => hne (hpre.eq_of_length heq)
    have h3 := lt_of_le_of_ne h1 h2
    rwa [relevantTag_length] at h3

/-- C5, counterexample: for the single fragment `"done<th"`, the text `"done"`
is emitted as an Answer segment at fragment end, before finalization; the
end-of-stream flush then emits only the pending `"<th"`, not `"done<th"`
verbatim. -/
theorem c5_finalize_flushes_only_pending :
    (processFragments initState [("done<th").toList]).2 =
      [⟨SegKind.answer, ("done").toList⟩] ∧
    (processFragments initState [("done<th").toList]).1 =
      ⟨false, ("<th").toList⟩ ∧
    flushBuffer ⟨false, ("<th").toList⟩ = [⟨SegKind.answer, ("<th").toList⟩] ∧
    (⟨SegKind.answer, ("<th").toList⟩ : Segment) ≠
      ⟨SegKind.answer, ("done<th").toList⟩ := by
  decide

/-- C5, amended: processing `"done<th"` from the initial state emits
Answer("done") at fragment end and leaves `"<th"` pending; the explicit
end-of-stream finalization then flushes Answer("<th").  Nothing is dropped:
the full output is Answer("done") followed by Answer("<th"). -/
theorem c5_trailing_partial_flush :
    runSplitter [("done<th").toList] =
      [⟨SegKind.answer, ("done").toList⟩, ⟨SegKind.answer, ("<th").toList⟩] := by
  decide

end ProxySplit

namespace ProxySSE

/-! ## SSE frame decoder (`internal/ssestream`, `eventStreamDecoder`)

The `bufio.Scanner` splits the response body into lines; the decoder is
modelled at line granularity, with the scanner's terminal error (`scn.Err()`)
carried alongside the lines. -/

/-- One SSE record (`Event`, ssestream lines 150-153). -/
structure Event where
  type : List Char
  data : List Char
deriving DecidableEq, Repr

/-- Split a line at the first colon (`bytes.Cut(txt, ":")`, line 184): the
name before the colon and the value after it; a line without a colon is all
name with an empty value. -/
def cutColon : List Char → List Char × List Char
  | [] => ([], [])
  | c :: rest =>
    if c = ':' then ([], rest)
    else
      let p := cutColon rest
      (c :: p.1, p.2)

/-- Trim one optional leading space of a field value (lines 187-189). -/
def trimValue : List Char → List Char
  | ' ' :: rest => rest
  | v => v

/-- Process one non-blank line (lines 183-206): comment lines (empty name)
and unknown field names are ignored, `event` overwrites the pending type,
`data` appends the value plus a newline to the pending data. -/
def processLine (ev data txt : List Char) : List Char × List Char :=
  let p := cutColon txt
  let value := trimValue p.2
  if p.1 = [] then (ev, data)
  else if p.1 = ("event").toList then (value, data)
  else if p.1 = ("data").toList then (ev, data ++ value ++ ['\n'])
  else (ev, data)

/-- Accumulate lines until a blank line dispatches the record (lines
171-207); `none` when the source is exhausted first, dropping the partially
accumulated record. -/
def nextRecord : List (List Char) → List Char → List Char →
    Option (Event × List (List Char))
  | [], _, _ => none
  | txt :: rest, ev, data =>
    if txt = [] then some (⟨ev, data⟩, rest)
    else
      let p := processLine ev data txt
      nextRecord rest p.1 p.2

/-- Frame decoder state: remaining source lines, the error the line scanner
will report once exhausted (`scn.Err()`), the most recently dispatched event,
and the sticky decoder error. -/
structure DecState where
  src : List (List Char)
  srcErr : Option (List Char)
  evt : Event
  err : Option (List Char)
deriving DecidableEq, Repr

/-- `eventStreamDecoder.Next` (lines 163-214): a sticky error fails fast;
otherwise the next blank-line-terminated record is dispatched, or the source
is exhausted, the scanner error (if any) is captured, and false is
returned. -/
def decoderNext (st : DecState) : Bool × DecState :=
  if st.err.isSome then (false, st)
  else
    match nextRecord st.src [] [] with
    | some (e, rest) => (true, { st with evt := e, src := rest })
    | none => (false, { st with src := [], err := st.srcErr })

/-! ## JSON values and a small JSON parser

Payload bytes are parsed into a JSON value both by the `gjson` error probe
and by `encoding/json`; numbers are modelled as integers, which covers every
payload these claims quantify over. -/

mutual
/-- A JSON value. -/
inductive JsonVal where
  | null
  | bool (b : Bool)
  | num (n : Int)
  | str (s : List Char)
  | arr (elems : JsonArr)
  | obj (fields : JsonFields)

/-- The element list of a JSON array. -/
inductive JsonArr where
  | nil
  | cons (v : JsonVal) (rest : JsonArr)

/-- The field list of a JSON object, in source order. -/
inductive JsonFields where
  | nil
  | cons (key : List Char) (v : JsonVal) (rest : JsonFields)
end

/-- Skip JSON whitespace. -/
def skipWs : List Char → List Char
  | [] => []
  | c :: rest =>
    if c = ' ' ∨ c = '\n' ∨ c = '\t' ∨ c = '\r' then skipWs rest else c :: rest

/-- Parse the body of a JSON string after the opening quote, handling the
common escapes; returns the decoded content and the remainder after the
closing quote. -/
def parseStringBody : Nat → List Char → Option (List Char × List Char)
  | 0, _ => none
  | _ + 1, [] => none
  | fuel + 1, c :: rest =>
    if c = '"' then some ([], rest)
    else if c = '\\' then
      match rest with
      | [] => none
      | e :: rest2 =>
        let esc :=
          if e = '"' then some '"'
          else if e = '\\' then some '\\'
          else if e = '/' then some '/'
          else if e = 'n' then some '\n'
          else if e = 't' then some '\t'
          else if e = 'r' then some '\r'
          else none
        match esc with
        | none => none
        | some ch =>
          match parseStringBody fuel rest2 with
          | none => none
          | some (s, rem) => some (ch :: s, rem)
    else
      match parseStringBody fuel rest with
      | none => none
      | some (s, rem) => some (c :: s, rem)

/-- Take a maximal run of decimal digits. -/
def takeDigits : List Char → List Char × List Char
  | [] => ([], [])
  | c :: rest =>
    if c.isDigit then
      let p := takeDigits rest
      (c :: p.1, p.2)
    else ([], c :: rest)

/-- Decimal digits to a natural number. -/
def digitsToNat (l : List Char) : Nat :=
  l.foldl (fun a c => a * 10 + (c.toNat - 48)) 0

mutual
/-- Parse one JSON value. -/
def parseVal : Nat → List Char → Option (JsonVal × List Char)
  | 0, _ => none
  | fuel + 1, s =>
    match skipWs s with
    | [] => none
    | 'n' :: 'u' :: 'l' :: 'l' :: rest => some (.null, rest)
    | 't' :: 'r' :: 'u' :: 'e' :: rest => some (.bool true, rest)
    | 'f' :: 'a' :: 'l' :: 's' :: 'e' :: rest => some (.bool false, rest)
    | '"' :: rest =>
      match parseStringBody (rest.length + 1) rest with
      | none => none
      | some (str, rem) => some (.str str, rem)
    | '\x7b' :: rest => parseObjBody fuel rest
    | '[' :: rest => parseArrBody fuel rest
    | '-' :: rest =>
      match takeDigits rest with
      | ([], _) => none
      | (ds, rem) => some (.num (-(digitsToNat ds : Int)), rem)
    | c :: rest =>
      if c.isDigit then
        match takeDigits (c :: rest) with
        | ([], _) => none
        | (ds, rem) => some (.num (digitsToNat ds), rem)
      else none

/-- Parse an object body after the opening brace. -/
def parseObjBody : Nat → List Char → Option (JsonVal × List Char)
  | 0, _ => none
  | fuel + 1, s =>
    match skipWs s with
    | '\x7d' :: rest => some (.obj .nil, rest)
    | s2 =>
      match parseFieldList fuel s2 with
      | none => none
      | some (fs, rem) => some (.obj fs, rem)

/-- Parse `"key": value` pairs separated by commas, up to the closing
brace. -/
def parseFieldList : Nat → List Char → Option (JsonFields × List Char)
  | 0, _ => none
  | fuel + 1, s =>
    match skipWs s with
    | '"' :: rest =>
      match parseStringBody (rest.length + 1) rest with
      | none => none
      | some (key, rem) =>
        match skipWs rem with
        | ':' :: rem2 =>
          match parseVal fuel rem2 with
          | none => none
          | some (v, rem3) =>
            match skipWs rem3 with
            | ',' :: rem4 =>
              match parseFieldList fuel rem4 with
              | none => none
              | some (fs, rem5) => some (.cons key v fs, rem5)
            | '\x7d' :: rem4 => some (.cons key v .nil, rem4)
            | _ => none
        | _ => none
    | _ => none

/-- Parse an array body after the opening bracket. -/
def parseArrBody : Nat → List Char → Option (JsonVal × List Char)
  | 0, _ => none
  | fuel + 1, s =>
    match skipWs s with
    | ']' :: rest => some (.arr .nil, rest)
    | s2 =>
      match parseElemList fuel s2 with
      | none => none
      | some (es, rem) => some (.arr es, rem)

/-- Parse array elements separated by commas, up to the closing bracket. -/
def parseElemList : Nat → List Char → Option (JsonArr × List Char)
  | 0, _ => none
  | fuel + 1, s =>
    match parseVal fuel s with
    | none => none
    | some (v, rem) =>
      match skipWs rem with
      | ',' :: rem2 =>
        match parseElemList fuel rem2 with
        | none => none
        | some (es, rem3) => some (.cons v es, rem3)
      | ']' :: rem2 => some (.cons v .nil, rem2)
      | _ => none
end

/-- Parse one JSON value from a payload, ignoring leading whitespace and
anything after the first value, as both `json.Decoder.Decode` and `gjson`
do.  The fuel bound is generous: at most three parser steps happen per input
character. -/
def parseJson (data : List Char) : Option JsonVal :=
  match parseVal (3 * data.length + 3) data with
  | none => none
  | some (v, _) => some v

/-- First field with the given key, as `gjson.Get` finds it. -/
def lookupField : JsonFields → List Char → Option JsonVal
  | .nil, _ => none
  | .cons k v rest, key => if k = key then some v else lookupField rest key

-- Sanity example: the parser is executable and reduces in the kernel.
example : parseJson ('\x7b' :: ("\"error\":\"x\"").toList ++ ['\x7d', '\n']) =
    some (.obj (.cons (("error").toList) (.str ['x']) .nil)) := by rfl

example : parseJson ([] : List Char) = none := by rfl

/-! ## The decode target: `ChatCompletionChunk` and its nested structs
(`internal/service/perplexity.go`, lines 41-82), with the json tags of the
source as field keys. -/

/-- `Usage` (lines 52-61). -/
structure Usage where
  promptTokens : Int := 0
  completionTokens : Int := 0
  totalTokens : Int := 0
  searchContextSize : List Char := []
  citationTokens : Int := 0
  numSearchQueries : Int := 0
  reasoningTokens : Int := 0
deriving DecidableEq, Repr

/-- `SearchResult` (lines 63-70). -/
structure SearchResult where
  title : List Char := []
  url : List Char := []
  date : List Char := []
  lastUpdated : List Char := []
  snippet : List Char := []
  source : List Char := []
deriving DecidableEq, Repr

/-- `Message` (lines 35-38). -/
structure Message where
  role : List Char := []
  content : List Char := []
deriving DecidableEq, Repr

/-- `Delta` (lines 79-82). -/
structure Delta where
  role : List Char := []
  content : List Char := []
deriving DecidableEq, Repr

/-- `Choice` (lines 72-77). -/
structure Choice where
  index : Int := 0
  message : Option Message := none
  delta : Delta := {}
  finishReason : Option (List Char) := none
deriving DecidableEq, Repr

/-- `ChatCompletionChunk` (lines 41-50). -/
structure ChatCompletionChunk where
  id : List Char := []
  object : List Char := []
  created : Int := 0
  model : List Char := []
  usage : Option Usage := none
  citations : Option (List (List Char)) := none
  searchResults : Option (List SearchResult) := none
  choices : List Choice := []
deriving DecidableEq, Repr

/-! ## Strict JSON decoding (`json.Decoder` with `DisallowUnknownFields`)

`encoding/json` matches each object key against the struct's json tags
(case-insensitively), fails on a key matching none of them, and otherwise
updates the corresponding field: null has no effect on strings, integers and
embedded structs, sets pointers and slices to nil, and any other type
mismatch is an error.  The reflection-driven decoder is modelled by a table
of field specifications per struct.  Each table entry also carries a
`bad` predicate marking values that contain a nested unknown field, together
with a proof that decoding such a value fails. -/

/-- `encoding/json` matches JSON keys to json tags case-insensitively. -/
def keyMatches (k tag : List Char) : Bool :=
  k.map Char.toLower = tag.map Char.toLower

/-- One field of a struct schema: json tag, strict field updater, and a
predicate (with proof) for values whose nested fields make decoding fail. -/
structure FieldSpec (α : Type) where
  key : List Char
  upd : JsonVal → α → Except Unit α
  bad : JsonVal → Bool
  bad_upd : ∀ v acc, bad v = true → upd v acc = .error ()

/-- Decode the fields of a JSON object into a struct, failing on the first
key that matches no json tag (`DisallowUnknownFields`) and on the first
field-level type error. -/
def decodeFieldsWith {α : Type} (tbl : List (FieldSpec α)) :
    JsonFields → α → Except Unit α
  | .nil, acc => .ok acc
  | .cons k v rest, acc =>
    match tbl.find? (fun e => keyMatches k e.key) with
    | none => .error ()
    | some e =>
      match e.upd v acc with
      | .error u => .error u
      | .ok acc2 => decodeFieldsWith tbl rest acc2

/-- Some field of the object is unknown to the schema: its key matches no
json tag, or its value contains a nested unknown field. -/
def fieldsBad {α : Type} (tbl : List (FieldSpec α)) : JsonFields → Bool
  | .nil => false
  | .cons k v rest =>
    (match tbl.find? (fun e => keyMatches k e.key) with
     | none => true
     | some e => e.bad v) || fieldsBad tbl rest

/-- An object with an unknown field never decodes. -/
lemma decodeFieldsWith_bad {α : Type} (tbl : List (FieldSpec α)) :
    ∀ (fs : JsonFields) (acc : α), fieldsBad tbl fs = true →
      decodeFieldsWith tbl fs acc = .error ()
  | .nil, acc, h => by simp [fieldsBad] at h
  | .cons k v rest, acc, h => by
    cases hf : tbl.find? (fun e => keyMatches k e.key) with
    | none => simp only [decodeFieldsWith, hf]
    | some e =>
      simp only [fieldsBad, hf] at h
      simp only [decodeFieldsWith, hf]
      have h2 : e.bad v = true ∨ fieldsBad tbl rest = true := by simpa using h
      rcases h2 with hb | hr
      · rw [e.bad_upd v acc hb]
      · cases hu : e.upd v acc with
        | error u => rfl
        | ok acc2 => exact decodeFieldsWith_bad tbl rest acc2 hr

/-- Build a field updater from a getter, a setter and a value decoder. -/
def updWith {α β : Type} (get : α → β) (set : α → β → α)
    (dec : JsonVal → β → Except Unit β) (v : JsonVal) (acc : α) : Except Unit α :=
  match dec v (get acc) with
  | .error u => .error u
  | .ok x => .ok (set acc x)

lemma updWith_error {α β : Type} (get : α → β) (set : α → β → α)
    (dec : JsonVal → β → Except Unit β) {v : JsonVal} (acc : α)
    (h : dec v (get acc) = .error ()) : updWith get set dec v acc = .error () := by
  unfold updWith
  rw [h]

/-- A field whose values never contain nested fields. -/
def scalarSpec {α β : Type} (tag : List Char) (get : α → β) (set : α → β → α)
    (dec : JsonVal → β → Except Unit β) : FieldSpec α :=
  ⟨tag, updWith get set dec, fun _ => false, fun _ _ h => Bool.noConfusion h⟩

/-- Decode into a Go `string` field: a JSON string overwrites, null has no
effect, anything else is a type error. -/
def decodeStringUpd (v : JsonVal) (cur : List Char) : Except Unit (List Char) :=
  match v with
  | .str s => .ok s
  | .null => .ok cur
  | _ => .error ()

/-- Decode into a Go integer field. -/
def decodeIntUpd (v : JsonVal) (cur : Int) : Except Unit Int :=
  match v with
  | .num n => .ok n
  | .null => .ok cur
  | _ => .error ()

/-- Decode into a Go `*string` field: null sets nil. -/
def decodeOptStrUpd (v : JsonVal) : Option (List Char) → Except Unit (Option (List Char)) :=
  fun _ =>
    match v with
    | .null => .ok none
    | .str s => .ok (some s)
    | _ => .error ()

/-- Schema of `Usage`. -/
def usageTbl : List (FieldSpec Usage) :=
  [scalarSpec (("prompt_tokens").toList) Usage.promptTokens
      (fun a x => { a with promptTokens := x }) decodeIntUpd,
   scalarSpec (("completion_tokens").toList) Usage.completionTokens
      (fun a x => { a with completionTokens := x }) decodeIntUpd,
   scalarSpec (("total_tokens").toList) Usage.totalTokens
      (fun a x => { a with totalTokens := x }) decodeIntUpd,
   scalarSpec (("search_context_size").toList) Usage.searchContextSize
      (fun a x => { a with searchContextSize := x }) decodeStringUpd,
   scalarSpec (("citation_tokens").toList) Usage.citationTokens
      (fun a x => { a with citationTokens := x }) decodeIntUpd,
   scalarSpec (("num_search_queries").toList) Usage.numSearchQueries
      (fun a x => { a with numSearchQueries := x }) decodeIntUpd,
   scalarSpec (("reasoning_tokens").toList) Usage.reasoningTokens
      (fun a x => { a with reasoningTokens := x }) decodeIntUpd]

/-- Schema of `SearchResult`. -/
def searchResultTbl : List (FieldSpec SearchResult) :=
  [scalarSpec (("title").toList) SearchResult.title
      (fun a x => { a with title := x }) decodeStringUpd,
   scalarSpec (("url").toList) SearchResult.url
      (fun a x => { a with url := x }) decodeStringUpd,
   scalarSpec (("date").toList) SearchResult.date
      (fun a x => { a with date := x }) decodeStringUpd,
   scalarSpec (("last_updated").toList) SearchResult.lastUpdated
      (fun a x => { a with lastUpdated := x }) decodeStringUpd,
   scalarSpec (("snippet").toList) SearchResult.snippet
      (fun a x => { a with snippet := x }) decodeStringUpd,
   scalarSpec (("source").toList) SearchResult.source
      (fun a x => { a with source := x }) decodeStringUpd]

/-- Schema of `Message`. -/
def messageTbl : List (FieldSpec Message) :=
  [scalarSpec (("role").toList) Message.role
      (fun a x => { a with role := x }) decodeStringUpd,
   scalarSpec (("content").toList) Message.content
      (fun a x => { a with content := x }) decodeStringUpd]

/-- Schema of `Delta`. -/
def deltaTbl : List (FieldSpec Delta) :=
  [scalarSpec (("role").toList) Delta.role
      (fun a x => { a with role := x }) decodeStringUpd,
   scalarSpec (("content").toList) Delta.content
      (fun a x => { a with content := x }) decodeStringUpd]

/-- Decode into the `usage *Usage` field: null sets nil, an object decodes
strictly into a fresh `Usage`. -/
def decodeUsageUpd (v : JsonVal) : Option Usage → Except Unit (Option Usage) :=
  fun _ =>
    match v with
    | .null => .ok none
    | .obj fs =>
      match decodeFieldsWith usageTbl fs {} with
      | .error u => .error u
      | .ok u => .ok (some u)
    | _ => .error ()

/-- A `usage` value containing an unknown field. -/
def usageValBad : JsonVal → Bool
  | .obj fs => fieldsBad usageTbl fs
  | _ => false

lemma decodeUsageUpd_bad (v : JsonVal) (cur : Option Usage)
    (h : usageValBad v = true) : decodeUsageUpd v cur = .error () := by
  cases v <;> simp_all [usageValBad, decodeUsageUpd, decodeFieldsWith_bad]

/-- Decode into the `message *Message` field of a choice. -/
def decodeMessageUpd (v : JsonVal) : Option Message → Except Unit (Option Message) :=
  fun _ =>
    match v with
    | .null => .ok none
    | .obj fs =>
      match decodeFieldsWith messageTbl fs {} with
      | .error u => .error u
      | .ok m => .ok (some m)
    | _ => .error ()

/-- A `message` value containing an unknown field. -/
def messageValBad : JsonVal → Bool
  | .obj fs => fieldsBad messageTbl fs
  | _ => false

lemma decodeMessageUpd_bad (v : JsonVal) (cur : Option Message)
    (h : messageValBad v = true) : decodeMessageUpd v cur = .error () := by
  cases v <;> simp_all [messageValBad, decodeMessageUpd, decodeFieldsWith_bad]

/-- Decode into the embedded `delta Delta` struct field: null has no effect,
an object decodes strictly into the current value. -/
def decodeDeltaUpd (v : JsonVal) (cur : Delta) : Except Unit Delta :=
  match v with
  | .null => .ok cur
  | .obj fs => decodeFieldsWith deltaTbl fs cur
  | _ => .error ()

/-- A `delta` value containing an unknown field. -/
def deltaValBad : JsonVal → Bool
  | .obj fs => fieldsBad deltaTbl fs
  | _ => false

lemma decodeDeltaUpd_bad (v : JsonVal) (cur : Delta)
    (h : deltaValBad v = true) : decodeDeltaUpd v cur = .error () := by
  cases v <;> simp_all [deltaValBad, decodeDeltaUpd, decodeFieldsWith_bad]

/-- Schema of `Choice`. -/
def choiceTbl : List (FieldSpec Choice) :=
  [scalarSpec (("index").toList) Choice.index
      (fun a x => { a with index := x }) decodeIntUpd,
   ⟨("message").toList,
    updWith Choice.message (fun a x => { a with message := x }) decodeMessageUpd,
    messageValBad,
    fun v acc h => updWith_error _ _ _ acc (decodeMessageUpd_bad v _ h)⟩,
   ⟨("delta").toList,
    updWith Choice.delta (fun a x => { a with delta := x }) decodeDeltaUpd,
    deltaValBad,
    fun v acc h => updWith_error _ _ _ acc (decodeDeltaUpd_bad v _ h)⟩,
   scalarSpec (("finish_reason").toList) Choice.finishReason
      (fun a x => { a with finishReason := x }) decodeOptStrUpd]

/-- Decode one element of the `choices` array: an object decodes strictly
into a fresh zero `Choice`, a null element leaves it zero. -/
def decodeChoiceElem (v : JsonVal) : Except Unit Choice :=
  match v with
  | .obj fs => decodeFieldsWith choiceTbl fs {}
  | .null => .ok {}
  | _ => .error ()

/-- A choices element containing an unknown field. -/
def choiceValBad : JsonVal → Bool
  | .obj fs => fieldsBad choiceTbl fs
  | _ => false

lemma decodeChoiceElem_bad (v : JsonVal) (h : choiceValBad v = true) :
    decodeChoiceElem v = .error () := by
  cases v <;> simp_all [choiceValBad, decodeChoiceElem, decodeFieldsWith_bad]

/-- Decode the `choices` array elementwise. -/
def decodeChoiceArr : JsonArr → Except Unit (List Choice)
  | .nil => .ok []
  | .cons v rest =>
    match decodeChoiceElem v with
    | .error u => .error u
    | .ok c =>
      match decodeChoiceArr rest with
      | .error u => .error u
      | .ok cs => .ok (c :: cs)

/-- Some choices element contains an unknown field. -/
def choiceArrBad : JsonArr → Bool
  | .nil => false
  | .cons v rest => choiceValBad v || choiceArrBad rest

lemma decodeChoiceArr_bad :
    ∀ es : JsonArr, choiceArrBad es = true → decodeChoiceArr es = .error ()
  | .nil, h => by simp [choiceArrBad] at h
  | .cons v rest, h => by
    have h2 : choiceValBad v = true ∨ choiceArrBad rest = true := by
      simpa [choiceArrBad] using h
    rcases h2 with hb | hr
    · simp [decodeChoiceArr, decodeChoiceElem_bad v hb]
    · cases hv : decodeChoiceElem v with
      | error u => simp [decodeChoiceArr, hv]
      | ok c => simp [decodeChoiceArr, hv, decodeChoiceArr_bad rest hr]

/-- Decode into the `choices []Choice` field: null sets the slice to nil. -/
def decodeChoicesUpd (v : JsonVal) : List Choice → Except Unit (List Choice) :=
  fun _ =>
    match v with
    | .null => .ok []
    | .arr es => decodeChoiceArr es
    | _ => .error ()

/-- A `choices` value containing an unknown field. -/
def choicesValBad : JsonVal → Bool
  | .arr es => choiceArrBad es
  | _ => false

lemma decodeChoicesUpd_bad (v : JsonVal) (cur : List Choice)
    (h : choicesValBad v = true) : decodeChoicesUpd v cur = .error () := by
  cases v <;> simp_all [choicesValBad, decodeChoicesUpd, decodeChoiceArr_bad]

/-- Decode one element of the `search_results` array. -/
def decodeSearchResultElem (v : JsonVal) : Except Unit SearchResult :=
  match v with
  | .obj fs => decodeFieldsWith searchResultTbl fs {}
  | .null => .ok {}
  | _ => .error ()

/-- A search result element containing an unknown field. -/
def searchResultValBad : JsonVal → Bool
  | .obj fs => fieldsBad searchResultTbl fs
  | _ => false

lemma decodeSearchResultElem_bad (v : JsonVal) (h : searchResultValBad v = true) :
    decodeSearchResultElem v = .error () := by
  cases v <;> simp_all [searchResultValBad, decodeSearchResultElem, decodeFieldsWith_bad]

/-- Decode the `search_results` array elementwise. -/
def decodeSearchResultArr : JsonArr → Except Unit (List SearchResult)
  | .nil => .ok []
  | .cons v rest =>
    match decodeSearchResultElem v with
    | .error u => .error u
    | .ok c =>
      match decodeSearchResultArr rest with
      | .error u => .error u
      | .ok cs => .ok (c :: cs)

/-- Some search result element contains an unknown field. -/
def searchResultArrBad : JsonArr → Bool
  | .nil => false
  | .cons v rest => searchResultValBad v || searchResultArrBad rest

lemma decodeSearchResultArr_bad :
    ∀ es : JsonArr, searchResultArrBad es = true → decodeSearchResultArr es = .error ()
  | .nil, h => by simp [searchResultArrBad] at h
  | .cons v rest, h => by
    have h2 : searchResultValBad v = true ∨ searchResultArrBad rest = true := by
      simpa [searchResultArrBad] using h
    rcases h2 with hb | hr
    · simp [decodeSearchResultArr, decodeSearchResultElem_bad v hb]
    · cases hv : decodeSearchResultElem v with
      | error u => simp [decodeSearchResultArr, hv]
      | ok c => simp [decodeSearchResultArr, hv, decodeSearchResultArr_bad rest hr]

/-- Decode into the `search_results []SearchResult` field. -/
def decodeSearchResultsUpd (v : JsonVal) :
    Option (List SearchResult) → Except Unit (Option (List SearchResult)) :=
  fun _ =>
    match v with
    | .null => .ok none
    | .arr es =>
      match decodeSearchResultArr es with
      | .error u => .error u
      | .ok rs => .ok (some rs)
    | _ => .error ()

/-- A `search_results` value containing an unknown field. -/
def searchResultsValBad : JsonVal → Bool
  | .arr es => searchResultArrBad es
  | _ => false

lemma decodeSearchResultsUpd_bad (v : JsonVal) (cur : Option (List SearchResult))
    (h : searchResultsValBad v = true) : decodeSearchResultsUpd v cur = .error () := by
  cases v <;> simp_all [searchResultsValBad, decodeSearchResultsUpd, decodeSearchResultArr_bad]

/-- Decode the `citations` array of strings (a null element leaves a zero
string). -/
def decodeStringArr : JsonArr → Except Unit (List (List Char))
  | .nil => .ok []
  | .cons v rest =>
    match v with
    | .str s =>
      match decodeStringArr rest with
      | .error u => .error u
      | .ok xs => .ok (s :: xs)
    | .null =>
      match decodeStringArr rest with
      | .error u => .error u
      | .ok xs => .ok ([] :: xs)
    | _ => .error ()

/-- Decode into the `citations []string` field. -/
def decodeCitationsUpd (v : JsonVal) :
    Option (List (List Char)) → Except Unit (Option (List (List Char))) :=
  fun _ =>
    match v with
    | .null => .ok none
    | .arr es =>
      match decodeStringArr es with
      | .error u => .error u
      | .ok xs => .ok (some xs)
    | _ => .error ()

/-- Schema of `ChatCompletionChunk`. -/
def chunkTbl : List (FieldSpec ChatCompletionChunk) :=
  [scalarSpec (("id").toList) ChatCompletionChunk.id
      (fun a x => { a with id := x }) decodeStringUpd,
   scalarSpec (("object").toList) ChatCompletionChunk.object
      (fun a x => { a with object := x }) decodeStringUpd,
   scalarSpec (("created").toList) ChatCompletionChunk.created
      (fun a x => { a with created := x }) decodeIntUpd,
   scalarSpec (("model").toList) ChatCompletionChunk.model
      (fun a x => { a with model := x }) decodeStringUpd,
   ⟨("usage").toList,
    updWith ChatCompletionChunk.usage (fun a x => { a with usage := x }) decodeUsageUpd,
    usageValBad,
    fun v acc h => updWith_error _ _ _ acc (decodeUsageUpd_bad v _ h)⟩,
   scalarSpec (("citations").toList) ChatCompletionChunk.citations
      (fun a x => { a with citations := x }) decodeCitationsUpd,
   ⟨("search_results").toList,
    updWith ChatCompletionChunk.searchResults
      (fun a x => { a with searchResults := x }) decodeSearchResultsUpd,
    searchResultsValBad,
    fun v acc h => updWith_error _ _ _ acc (decodeSearchResultsUpd_bad v _ h)⟩,
   ⟨("choices").toList,
    updWith ChatCompletionChunk.choices
      (fun a x => { a with choices := x }) decodeChoicesUpd,
    choicesValBad,
    fun v acc h => updWith_error _ _ _ acc (decodeChoicesUpd_bad v _ h)⟩]

/-- Strict decode of a parsed payload into a `ChatCompletionChunk`
(`DisallowUnknownFields`); a JSON null leaves the zero value, any other
non-object is a type error. -/
def decodeChunk : JsonVal → Except Unit ChatCompletionChunk
  | .obj fs => decodeFieldsWith chunkTbl fs {}
  | .null => .ok {}
  | _ => .error ()

/-- The payload is a JSON object containing, at some level of the chunk
schema, a field unknown to that level. -/
def chunkValBad : JsonVal → Bool
  | .obj fs => fieldsBad chunkTbl fs
  | _ => false

lemma decodeChunk_bad (v : JsonVal) (h : chunkValBad v = true) :
    decodeChunk v = .error () := by
  cases v <;> simp_all [chunkValBad, decodeChunk, decodeFieldsWith_bad]

/-! ## The upstream-error probe and the typed event stream (`Stream[T]`) -/

/-- JSON string escaping used when re-rendering values. -/
def escapeChar (c : Char) : List Char :=
  if c = '"' then ['\\', '"']
  else if c = '\\' then ['\\', '\\']
  else if c = '\n' then ['\\', 'n']
  else if c = '\t' then ['\\', 't']
  else if c = '\r' then ['\\', 'r']
  else [c]

/-- JSON-escape a string. -/
def escapeString (s : List Char) : List Char :=
  s.foldr (fun c acc => escapeChar c ++ acc) []

mutual
/-- Re-render a JSON value as text (for `gjson.Result.String()` on composite
values, which returns the raw JSON; whitespace may differ from the original
wire bytes — no claim exercises this path). -/
def renderVal : JsonVal → List Char
  | .null => ("null").toList
  | .bool true => ("true").toList
  | .bool false => ("false").toList
  | .num n => (toString n).toList
  | .str s => '"' :: escapeString s ++ ['"']
  | .arr es => '[' :: renderElems es ++ [']']
  | .obj fs => '\x7b' :: renderFields fs ++ ['\x7d']

/-- Render array elements, comma-separated. -/
def renderElems : JsonArr → List Char
  | .nil => []
  | .cons v .nil => renderVal v
  | .cons v rest => renderVal v ++ ',' :: renderElems rest

/-- Render object fields, comma-separated. -/
def renderFields : JsonFields → List Char
  | .nil => []
  | .cons k v .nil => '"' :: escapeString k ++ '"' :: ':' :: renderVal v
  | .cons k v rest =>
    '"' :: escapeString k ++ '"' :: ':' :: renderVal v ++ ',' :: renderFields rest
end

/-- `gjson.Result.String()`: strings yield their content, numbers their
decimal form, booleans their names, null the empty string, and composite
values their JSON text. -/
def jsonValString : JsonVal → List Char
  | .str s => s
  | .num n => (toString n).toList
  | .bool true => ("true").toList
  | .bool false => ("false").toList
  | .null => []
  | v => renderVal v

/-- The `gjson.GetBytes(data, "error")` probe (`Stream[T].Next`, lines
272-275): the value of a top-level `error` field of the JSON payload, as
`Result.String()` renders it; `none` when the payload is not a JSON object or
has no such field. -/
def errorField (data : List Char) : Option (List Char) :=
  match parseJson data with
  | some (.obj fs) =>
    match lookupField fs (("error").toList) with
    | some v => some (jsonValString v)
    | none => none
  | _ => none

/-- The stream-level error taxonomy: an upstream `error` payload (the Go code
wraps the value as "received error while streaming: %s" — the carried value is
modelled), a strict-decode failure (message abstracted), or an error
propagated from the frame decoder. -/
inductive StreamErr where
  | upstream (msg : List Char)
  | decodeFail
  | frame (msg : List Char)
deriving DecidableEq, Repr

/-- `Stream[T]` state (lines 228-233), instantiated at `ChatCompletionChunk`
as `StreamChatCompletions` does: the wrapped frame decoder, the current
chunk (zero-valued until the first decode), the sticky error, and the `done`
flag set by the `[DONE]` sentinel. -/
structure StreamState where
  dec : DecState
  cur : ChatCompletionChunk
  err : Option StreamErr
  done : Bool
deriving DecidableEq, Repr

/-- The `[DONE]` sentinel. -/
def doneMarker : List Char := ("[DONE]").toList

/-- The reserved multi-segment event-type namespace. -/
def threadNS : List Char := ("thread.").toList

/-- Decode an event payload: parse the JSON (failing on non-JSON, including
empty payloads) and strictly decode it. -/
def decodeChunkBytes (data : List Char) : Except Unit ChatCompletionChunk :=
  match parseJson data with
  | none => .error ()
  | some v => decodeChunk v

/-- The wrapper payload built for `thread.`-prefixed event types
(`fmt.Sprintf` with `%q` on the type, line 295). -/
def wrapData (ty data : List Char) : List Char :=
  '\x7b' :: (" \"event\": ").toList ++ ('"' :: escapeString ty ++ ['"']) ++
    (", \"data\": ").toList ++ data ++ [' ', '\x7d']

/-- The loop body of `Stream[T].Next` (lines 253-311): pull records from the
frame decoder; discard everything after `[DONE]`; otherwise probe for an
upstream `error` field, then strictly decode the payload — directly for an
empty or non-`thread.` event type, through the wrapper object otherwise.
The first failure freezes the stream.  Fuel is one more than the number of
remaining source lines; each iteration consumes at least one line. -/
def streamNextAux : Nat → StreamState → Bool × StreamState
  | 0, st => (false, st)
  | fuel + 1, st =>
    match decoderNext st.dec with
    | (false, d2) => (false, { st with dec := d2, err := d2.err.map StreamErr.frame })
    | (true, d2) =>
      if st.done then streamNextAux fuel { st with dec := d2 }
      else if doneMarker.isPrefixOf d2.evt.data then
        streamNextAux fuel { st with dec := d2, done := true }
      else if d2.evt.type = [] ∨ threadNS.isPrefixOf d2.evt.type = false then
        match errorField d2.evt.data with
        | some m => (false, { st with dec := d2, err := some (.upstream m) })
        | none =>
          match decodeChunkBytes d2.evt.data with
          | .error _ => (false, { st with dec := d2, err := some .decodeFail })
          | .ok c => (true, { st with dec := d2, cur := c })
      else
        match errorField d2.evt.data with
        | some m => (false, { st with dec := d2, err := some (.upstream m) })
        | none =>
          match decodeChunkBytes (wrapData d2.evt.type d2.evt.data) with
          | .error _ => (false, { st with dec := d2, err := some .decodeFail })
          | .ok c => (true, { st with dec := d2, cur := c })

/-- `Stream[T].Next` (lines 253-311): a frozen error fails fast, otherwise
run the pull loop. -/
def streamNext (st : StreamState) : Bool × StreamState :=
  if st.err.isSome then (false, st)
  else streamNextAux (st.dec.src.length + 1) st

/-! ## Lemmas about the decoder and stream step functions -/

lemma nextRecord_length :
    ∀ (lines : List (List Char)) (ev da : List Char) (e : Event)
      (rest : List (List Char)),
      nextRecord lines ev da = some (e, rest) → rest.length < lines.length := by
  intro lines
  induction lines with
  | nil => intro ev da e rest h; simp [nextRecord] at h
  | cons txt ls ih =>
    intro ev da e rest h
    simp only [nextRecord] at h
    split at h
    · obtain ⟨h1, h2⟩ : (⟨ev, da⟩ : Event) = e ∧ ls = rest := by simpa using h
      subst h2
      simp
    · have := ih _ _ _ _ h
      simp only [List.length_cons]
      omega

lemma nextRecord_none_of_no_blank :
    ∀ (lines : List (List Char)), (∀ l ∈ lines, l ≠ []) →
      ∀ ev da, nextRecord lines ev da = none := by
  intro lines
  induction lines with
  | nil => intro _ ev da; rfl
  | cons txt ls ih =>
    intro h ev da
    have ht : txt ≠ [] := h txt (by simp)
    simp only [nextRecord, if_neg ht]
    exact ih (fun l hl => h l (by simp [hl])) _ _

lemma decoderNext_some {st : DecState} {e : Event} {rest : List (List Char)}
    (he : st.err = none) (h : nextRecord st.src [] [] = some (e, rest)) :
    decoderNext st = (true, { st with evt := e, src := rest }) := by
  simp [decoderNext, he, h]

lemma decoderNext_none {st : DecState} (he : st.err = none)
    (h : nextRecord st.src [] [] = none) :
    decoderNext st = (false, { st with src := [], err := st.srcErr }) := by
  simp [decoderNext, he, h]

/-- Once `done` is set, the loop discards every remaining record without
decoding it, drains the source and ends with no error and the current chunk
untouched. -/
lemma streamNextAux_drain :
    ∀ (fuel : Nat) (st : StreamState), st.done = true → st.dec.err = none →
      st.dec.srcErr = none → st.dec.src.length < fuel →
      (streamNextAux fuel st).1 = false ∧ (streamNextAux fuel st).2.err = none ∧
      (streamNextAux fuel st).2.cur = st.cur ∧ (streamNextAux fuel st).2.dec.src = [] := by
  intro fuel
  induction fuel with
  | zero => intro st _ _ _ h; omega
  | succ fuel ih =>
    intro st hd he hs hlen
    cases hnr : nextRecord st.dec.src [] [] with
    | none =>
      have hdec := decoderNext_none he hnr
      simp only [streamNextAux, hdec]
      simp [hs]
    | some p =>
      obtain ⟨e, rest⟩ := p
      have hdec := decoderNext_some he hnr
      simp only [streamNextAux, hdec]
      rw [if_pos hd]
      have hlt : rest.length < fuel := by
        have := nextRecord_length st.dec.src [] [] e rest hnr
        omega
      exact ih { st with dec := { st.dec with evt := e, src := rest } } hd he hs hlt

/-! ## Claims about the frame decoder and the typed event stream -/

/-- C6: when the next record's data begins with `[DONE]`, the stream marks
itself done, keeps pulling from the frame decoder while discarding every
subsequent event without decoding it, surfaces no further chunk, and — the
source being exhausted without a read error — returns false with no error;
the current chunk is untouched and the source is fully drained. -/
theorem c6_done_sentinel_drains (st : StreamState) (e : Event)
    (rest : List (List Char))
    (herr : st.err = none) (hdecerr : st.dec.err = none)
    (hsrcerr : st.dec.srcErr = none)
    (hrec : nextRecord st.dec.src [] [] = some (e, rest))
    (hdone : doneMarker.isPrefixOf e.data = true) :
    (streamNext st).1 = false ∧ (streamNext st).2.err = none ∧
    (streamNext st).2.cur = st.cur ∧ (streamNext st).2.dec.src = [] := by
  have hdec := decoderNext_some hdecerr hrec
  have hlt : rest.length < st.dec.src.length :=
    nextRecord_length st.dec.src [] [] e rest hrec
  unfold streamNext
  rw [if_neg (by simp [herr])]
  simp only [streamNextAux, hdec]
  by_cases hd : st.done = true
  · rw [if_pos hd]
    exact streamNextAux_drain _ _ hd hdecerr hsrcerr (by simpa using hlt)
  · rw [if_neg hd]
    rw [if_pos (show doneMarker.isPrefixOf
      ({ st.dec with evt := e, src := rest } : DecState).evt.data = true from hdone)]
    exact streamNextAux_drain _ _ rfl hdecerr hsrcerr (by simpa using hlt)

/-- C7: an event whose payload is a JSON object with a top-level `error`
field (value `m`) makes the next `Next()` return false and freeze the stream
with the upstream error carrying `m`; the state is otherwise unchanged (in
particular the current chunk), and every subsequent `Next()` call returns
false on the unchanged state. -/
theorem c7_upstream_error_freezes (st : StreamState) (e : Event)
    (rest : List (List Char)) (fs : JsonFields) (m : List Char)
    (herr : st.err = none) (hnotdone : st.done = false)
    (hdecerr : st.dec.err = none)
    (hrec : nextRecord st.dec.src [] [] = some (e, rest))
    (hnd : doneMarker.isPrefixOf e.data = false)
    (hparse : parseJson e.data = some (.obj fs))
    (hlook : lookupField fs (("error").toList) = some (.str m)) :
    streamNext st = (false, { st with dec := { st.dec with evt := e, src := rest }, err := some (.upstream m) }) ∧
    streamNext { st with dec := { st.dec with evt := e, src := rest }, err := some (.upstream m) } =
      (false, { st with dec := { st.dec with evt := e, src := rest }, err := some (.upstream m) }) := by
  have hef : errorField e.data = some m := by
    have hlook2 : lookupField fs ['e', 'r', 'r', 'o', 'r'] = some (.str m) := hlook
    simp [errorField, hparse, hlook2, jsonValString]
  have hdec := decoderNext_some hdecerr hrec
  constructor
  · unfold streamNext
    rw [if_neg (by simp [herr])]
    simp only [streamNextAux, hdec]
    rw [if_neg (by simp [hnotdone])]
    rw [if_neg (show ¬doneMarker.isPrefixOf
      ({ st.dec with evt := e, src := rest } : DecState).evt.data = true by simp [hnd])]
    by_cases ht : e.type = [] ∨ threadNS.isPrefixOf e.type = false
    · rw [if_pos (show ({ st.dec with evt := e, src := rest } : DecState).evt.type = [] ∨
        threadNS.isPrefixOf ({ st.dec with evt := e, src := rest } : DecState).evt.type =
          false from ht)]
      simp only [hef]
    · rw [if_neg (show ¬(({ st.dec with evt := e, src := rest } : DecState).evt.type = [] ∨
        threadNS.isPrefixOf ({ st.dec with evt := e, src := rest } : DecState).evt.type =
          false) from ht)]
      simp only [hef]
  · simp [streamNext]

/-- C8, counterexample: the payload `\x7b"error":"x"\x7d` contains the
top-level field `error`, which is unknown to the `ChatCompletionChunk`
schema, yet `Next()` freezes the stream with an UpstreamError — the probe for
an `error` field runs before decoding — not with a DecodeError as the claim
states for every unknown field. -/
theorem c8_error_key_counterexample :
    chunkValBad (.obj (.cons (("error").toList) (.str ['x']) .nil)) = true ∧
    parseJson ('\x7b' :: ("\"error\":\"x\"").toList ++ ['\x7d', '\n']) =
      some (.obj (.cons (("error").toList) (.str ['x']) .nil)) ∧
    (streamNext ⟨⟨[("data: ").toList ++ '\x7b' :: ("\"error\":\"x\"").toList ++ ['\x7d'], []], none, ⟨[], []⟩, none⟩, {}, none, false⟩).2.err = some (.upstream ['x']) ∧
    (StreamErr.upstream ['x']) ≠ StreamErr.decodeFail := by
  exact ⟨rfl, rfl, rfl, by decide⟩

/-- C8, amended: provided the stream is active (not frozen, not past
`[DONE]`), the event's data does not begin with `[DONE]`, and the payload has
no top-level `error` field (which would short-circuit as an upstream error
before decoding), a payload that parses to a JSON object containing — at any
level of the `ChatCompletionChunk` schema — a field unknown to that level
makes `Next()` return false with a DecodeError frozen on the stream, rather
than silently dropping the unknown field. -/
theorem c8_unknown_field_decode_error (st : StreamState) (e : Event)
    (rest : List (List Char)) (v : JsonVal)
    (herr : st.err = none) (hnotdone : st.done = false)
    (hdecerr : st.dec.err = none)
    (hrec : nextRecord st.dec.src [] [] = some (e, rest))
    (hnd : doneMarker.isPrefixOf e.data = false)
    (htype : e.type = [] ∨ threadNS.isPrefixOf e.type = false)
    (hef : errorField e.data = none)
    (hparse : parseJson e.data = some v)
    (hbad : chunkValBad v = true) :
    streamNext st = (false, { st with dec := { st.dec with evt := e, src := rest }, err := some .decodeFail }) ∧
    streamNext { st with dec := { st.dec with evt := e, src := rest }, err := some .decodeFail } =
      (false, { st with dec := { st.dec with evt := e, src := rest }, err := some .decodeFail }) := by
  have hdecode : decodeChunkBytes e.data = .error () := by
    simp [decodeChunkBytes, hparse, decodeChunk_bad v hbad]
  have hdec := decoderNext_some hdecerr hrec
  constructor
  · unfold streamNext
    rw [if_neg (by simp [herr])]
    simp only [streamNextAux, hdec]
    rw [if_neg (by simp [hnotdone])]
    rw [if_neg (show ¬doneMarker.isPrefixOf
      ({ st.dec with evt := e, src := rest } : DecState).evt.data = true by simp [hnd])]
    rw [if_pos (show ({ st.dec with evt := e, src := rest } : DecState).evt.type = [] ∨
      threadNS.isPrefixOf ({ st.dec with evt := e, src := rest } : DecState).evt.type =
        false from htype)]
    simp only [hef, hdecode]
  · simp [streamNext]

/-- C9: when the remaining source lines contain no blank line, the frame
decoder's `Next()` returns false, the scanner error (if any) is captured, the
source is consumed, and the partially accumulated record is dropped — the
dispatched event is unchanged, so it is never surfaced via `Event()`. -/
theorem c9_no_flush_on_eof (st : DecState) (he : st.err = none)
    (hnb : ∀ l ∈ st.src, l ≠ []) :
    decoderNext st = (false, { st with src := [], err := st.srcErr }) :=
  decoderNext_none he (nextRecord_none_of_no_blank st.src hnb [] [])

/-- C10: an SSE record with no `event` and no `data` field — for example a
record consisting of one comment line — is still dispatched as an event with
empty type and empty data; the typed event stream then fails to JSON-decode
the empty payload, so `Next()` returns false with a DecodeError instead of
skipping the record. -/
theorem c10_empty_record_decode_error :
    (∀ (cmt : List Char) (rest : List (List Char)),
      nextRecord ((':' :: cmt) :: [] :: rest) [] [] = some (⟨[], []⟩, rest)) ∧
    (∀ (st : StreamState) (rest : List (List Char)),
      st.err = none → st.done = false → st.dec.err = none →
      nextRecord st.dec.src [] [] = some (⟨[], []⟩, rest) →
      streamNext st = (false, { st with dec := { st.dec with evt := ⟨[], []⟩, src := rest }, err := some StreamErr.decodeFail })) := by
  constructor
  · intro cmt rest
    simp [nextRecord, processLine, cutColon]
  · intro st rest herr hnotdone hdecerr hrec
    have hdec := decoderNext_some hdecerr hrec
    unfold streamNext
    rw [if_neg (by simp [herr])]
    simp only [streamNextAux, hdec]
    rw [if_neg (by simp [hnotdone])]
    rw [if_neg (show ¬doneMarker.isPrefixOf
      ({ st.dec with evt := (⟨[], []⟩ : Event), src := rest } : DecState).evt.data = true by
        simp [doneMarker, List.isPrefixOf])]
    rw [if_pos (Or.inl trivial)]
    rfl

/-! ## Concrete witnesses -/

/-- Concrete source for the C6 witness: a `[DONE]` record, then a record whose
payload is not decodable, then a trailing partial record. -/
def c6State : StreamState :=
  ⟨⟨[("data: [DONE]").toList, [], ("data: junk ").toList ++ ['\x7b'], [],
     ("data: partial").toList], none, ⟨[], []⟩, none⟩, {}, none, false⟩

theorem c6_done_sentinel_drains_witness :
    (streamNext c6State).1 = false ∧ (streamNext c6State).2.err = none ∧
    (streamNext c6State).2.cur = c6State.cur ∧ (streamNext c6State).2.dec.src = [] :=
  c6_done_sentinel_drains c6State ⟨[], ("[DONE]\n").toList⟩
    [("data: junk ").toList ++ ['\x7b'], [], ("data: partial").toList]
    rfl rfl rfl rfl rfl

/-- Concrete source for the C7 witness: one record whose payload is
`atsign`-free JSON `\x7b"error":"x"\x7d`. -/
def c7State : StreamState :=
  ⟨⟨[("data: ").toList ++ '\x7b' :: ("\"error\":\"x\"").toList ++ ['\x7d'], []],
    none, ⟨[], []⟩, none⟩, {}, none, false⟩

theorem c7_upstream_error_freezes_witness :
    streamNext c7State = (false, { c7State with dec := { c7State.dec with evt := ⟨[], '\x7b' :: ("\"error\":\"x\"").toList ++ ['\x7d', '\n']⟩, src := [] }, err := some (.upstream ['x']) }) ∧
    streamNext { c7State with dec := { c7State.dec with evt := ⟨[], '\x7b' :: ("\"error\":\"x\"").toList ++ ['\x7d', '\n']⟩, src := [] }, err := some (.upstream ['x']) } =
      (false, { c7State with dec := { c7State.dec with evt := ⟨[], '\x7b' :: ("\"error\":\"x\"").toList ++ ['\x7d', '\n']⟩, src := [] }, err := some (.upstream ['x']) }) :=
  c7_upstream_error_freezes c7State
    ⟨[], '\x7b' :: ("\"error\":\"x\"").toList ++ ['\x7d', '\n']⟩ []
    (.cons (("error").toList) (.str ['x']) .nil) ['x']
    rfl rfl rfl rfl rfl rfl rfl

/-- Concrete source for the C8 witness: one record whose payload
`\x7b"bogus":1\x7d` has the top-level field `bogus`, unknown to the chunk
schema. -/
def c8State : StreamState :=
  ⟨⟨[("data: ").toList ++ '\x7b' :: ("\"bogus\":1").toList ++ ['\x7d'], []],
    none, ⟨[], []⟩, none⟩, {}, none, false⟩

theorem c8_unknown_field_decode_error_witness :
    streamNext c8State = (false, { c8State with dec := { c8State.dec with evt := ⟨[], '\x7b' :: ("\"bogus\":1").toList ++ ['\x7d', '\n']⟩, src := [] }, err := some .decodeFail }) ∧
    streamNext { c8State with dec := { c8State.dec with evt := ⟨[], '\x7b' :: ("\"bogus\":1").toList ++ ['\x7d', '\n']⟩, src := [] }, err := some .decodeFail } =
      (false, { c8State with dec := { c8State.dec with evt := ⟨[], '\x7b' :: ("\"bogus\":1").toList ++ ['\x7d', '\n']⟩, src := [] }, err := some .decodeFail }) :=
  c8_unknown_field_decode_error c8State
    ⟨[], '\x7b' :: ("\"bogus\":1").toList ++ ['\x7d', '\n']⟩ []
    (.obj (.cons (("bogus").toList) (.num 1) .nil))
    rfl rfl rfl rfl rfl (Or.inl rfl) rfl rfl rfl

/-- Concrete source for the C9 witness: two field lines and no blank line. -/
def c9State : DecState :=
  ⟨[("event: foo").toList, ("data: partial").toList], none, ⟨[], []⟩, none⟩

theorem c9_no_flush_on_eof_witness :
    decoderNext c9State = (false, { c9State with src := [], err := c9State.srcErr }) :=
  c9_no_flush_on_eof c9State rfl (by decide)

/-- Concrete source for the C10 witness: a comment-only record followed by a
further record. -/
def c10State : StreamState :=
  ⟨⟨(':' :: ("comment").toList) :: [] :: [("data: after").toList],
    none, ⟨[], []⟩, none⟩, {}, none, false⟩

theorem c10_empty_record_decode_error_witness :
    nextRecord ((':' :: ("comment").toList) :: [] :: [("data: after").toList]) [] [] =
      some (⟨[], []⟩, [("data: after").toList]) ∧
    streamNext c10State = (false, { c10State with dec := { c10State.dec with evt := ⟨[], []⟩, src := [("data: after").toList] }, err := some StreamErr.decodeFail }) :=
  ⟨c10_empty_record_decode_error.1 (("comment").toList) [("data: after").toList],
   c10_empty_record_decode_error.2 c10State [("data: after").toList] rfl rfl rfl rfl⟩

end ProxySSE

